import Mathlib

/-!
Verification development for the `ai-news-digest` repository (Cloudflare
worker implementation under `apps/worker/src`).  The TypeScript pipeline is
shallowly embedded: pure string and list manipulations become Lean
functions, the D1 database tables become explicit lists or records, and
external library calls (SHA-256, `Date.parse`, the WHATWG URL parser, the
XML parser, HTTP fetch) become function parameters so that every piece of
repository logic stays concrete and executable.
-/

namespace NewsDigest

/-! ## Run status (index.ts `runOnce`, lines 369-379)

The terminal status written by `runOnce` on normal (non-throwing)
completion is
`(emailRes.ok && summary.ok) ? "success" : (feeds_ok > 0 ? "partial" : "failed")`
and `markRunFinish` records the counters plus `email_sent = emailRes.ok ? 1 : 0`. -/

def runStatusOf (emailOk summaryOk : Bool) (feeds_ok : Nat) : String :=
  if emailOk && summaryOk then "success"
  else if 0 < feeds_ok then "partial"
  else "failed"

/-- Data written by `markRunFinish` at the end of a normally terminating
`runOnce` (index.ts lines 370-379). -/
structure RunFinish where
  status : String
  feeds_total : Nat
  feeds_ok : Nat
  articles_seen : Nat
  articles_used : Nat
  ai_tokens_in : Nat
  ai_tokens_out : Nat
  email_sent : Nat
  deriving DecidableEq, Repr

def markRunFinishData (emailOk summaryOk : Bool)
    (feeds_total feeds_ok articles_seen articles_used tin tout : Nat) : RunFinish :=
  { status := runStatusOf emailOk summaryOk feeds_ok
    feeds_total := feeds_total
    feeds_ok := feeds_ok
    articles_seen := articles_seen
    articles_used := articles_used
    ai_tokens_in := tin
    ai_tokens_out := tout
    email_sent := if emailOk then 1 else 0 }

/-! ## Character classes and basic string helpers (util.ts)

JavaScript regexp character classes used by `util.ts`, restricted to the
code points the claims exercise: `\s` (JavaScript whitespace) and `\p{P}`
(Unicode general-category punctuation, modelled on its ASCII code points;
none of the claims depend on non-ASCII punctuation). -/

def isJsWhitespace (c : Char) : Bool :=
  c = ' ' || c = '\t' || c = '\n' || c = '\r' || c = '\x0b' || c = '\x0c' ||
  [0x00A0, 0x1680, 0x2028, 0x2029, 0x202F, 0x205F, 0x3000,
   0xFEFF].contains c.toNat ||
  (0x2000 ≤ c.toNat && c.toNat ≤ 0x200A)

/-- ASCII code points of the Unicode `\p{P}` class:
`! " # % & ( ) * , - . / : ; ? @ [ \ ] _` plus the apostrophe (39) and the
two brace characters (123, 125). -/
def isAsciiPunct (c : Char) : Bool :=
  [33, 34, 35, 37, 38, 39, 40, 41, 42, 44, 45, 46, 47, 58, 59, 63, 64,
   91, 92, 93, 95, 123, 125].contains c.toNat

def isSpacePunct (c : Char) : Bool := isJsWhitespace c || isAsciiPunct c

/-- JavaScript `String.prototype.trim`: drop whitespace from both ends. -/
def jsTrimList (l : List Char) : List Char :=
  ((l.dropWhile isJsWhitespace).reverse.dropWhile isJsWhitespace).reverse

def jsTrim (s : String) : String := ⟨jsTrimList s.data⟩

/-- Single pass implementing `replace(/[\s\p{P}]+/gu, " ")`: each maximal
run of whitespace-or-punctuation characters becomes one space.  The flag
records whether the previous character belonged to the current run. -/
def collapseGo : List Char → Bool → List Char
  | [], _ => []
  | c :: cs, inRun =>
    if isSpacePunct c then
      if inRun then collapseGo cs true else ' ' :: collapseGo cs true
    else c :: collapseGo cs false

def toLowerList (l : List Char) : List Char := l.map Char.toLower

/-- util.ts `normalizeTitle`:
`t.trim().toLowerCase().replace(/[\s\p{P}]+/gu, " ").trim()`. -/
def normalizeTitle (t : String) : String :=
  ⟨jsTrimList (collapseGo (toLowerList (jsTrimList t.data)) false)⟩

/-! ## Secret redaction (util.ts `redactSecrets`, lines 14-17) -/

/-- Character class `[A-Za-z0-9_\-]` of the redaction regexp. -/
def isWordChar (c : Char) : Bool := c.isAlphanum || c = '_' || c = '-'

def redactedChars : List Char := "[REDACTED]".data

/-- Emit one maximal word-character run (held reversed in `acc`):
runs of 20 or more characters are replaced by `[REDACTED]`. -/
def flushRun (acc : List Char) : List Char :=
  if 20 ≤ acc.length then redactedChars else acc.reverse

/-- Single pass implementing `s.replace(/[A-Za-z0-9_\-]{20,}/g,
"[REDACTED]")`: the regexp matches exactly the maximal word-character
runs of length at least 20, each of which `flushRun` replaces. -/
def redactGo : List Char → List Char → List Char
  | [], acc => flushRun acc
  | c :: cs, acc =>
    if isWordChar c then redactGo cs (c :: acc)
    else flushRun acc ++ c :: redactGo cs []

def redactSecrets (s : String) : String := ⟨redactGo s.data []⟩

/-- util.ts `log`: `console.log(redactSecrets(JSON.stringify(obj)))`.
The serialisation is abstracted: the argument is the already-stringified
object. -/
def consoleLogLine (jsonStr : String) : String := redactSecrets jsonStr

/-! ## Run-log persistence (storage.ts `appendRunLog`, lines 201-206)

`appendRunLog` inserts `(run_id, nowIso(), level, message, ctx)` where
`ctx = context == null ? null : JSON.stringify(context).slice(0, 4000)`.
The stringification is abstracted (the parameter is the stringified
context); note that neither `message` nor `ctx` passes through
`redactSecrets`. -/

structure RunLogRow where
  run_id : String
  ts : String
  level : String
  message : String
  context_json : Option String
  deriving DecidableEq

def appendRunLog (run_id ts level message : String)
    (context_json : Option String) : RunLogRow :=
  { run_id := run_id
    ts := ts
    level := level
    message := message
    context_json := context_json.map (fun c => ⟨c.data.take 4000⟩) }

/-! ### Scanners detecting long character runs -/

/-- Bool-valued check that no run of 20 or more consecutive
word-characters occurs; `cur` is the length of the run ending just before
the current position. -/
def wordScan : List Char → Nat → Bool
  | [], _ => true
  | c :: cs, cur =>
    if isWordChar c then decide (cur + 1 < 20) && wordScan cs (cur + 1)
    else wordScan cs 0

/-- Bool-valued check that no run of 20 or more consecutive alphanumeric
characters occurs. -/
def alnumScan : List Char → Nat → Bool
  | [], _ => true
  | c :: cs, cur =>
    if c.isAlphanum then decide (cur + 1 < 20) && alnumScan cs (cur + 1)
    else alnumScan cs 0

/-- The string contains no run of 20 or more alphanumeric characters. -/
def noLongAlnumRun (s : String) : Bool := alnumScan s.data 0

theorem wordScan_append_of_all (xs : List Char) (ys : List Char) (cur : Nat)
    (h : xs.all isWordChar = true) :
    wordScan (xs ++ ys) cur =
      ((decide (xs.length = 0) || decide (cur + xs.length < 20)) &&
        wordScan ys (cur + xs.length)) := by
  induction xs generalizing cur with
  | nil => simp [wordScan]
  | cons c cs ih =>
    simp only [List.all_cons, Bool.and_eq_true] at h
    simp only [List.cons_append, wordScan, h.1, if_true, List.length_cons,
      List.append_eq]
    rw [ih (cur + 1) h.2]
    have harith : cur + 1 + cs.length = cur + (cs.length + 1) := by omega
    rw [harith]
    by_cases h2 : cs.length = 0
    · simp only [h2]
      by_cases h1 : cur + 1 < 20 <;> simp [h1, h2]
    · have h3 : ¬ (cs.length + 1 = 0) := by omega
      by_cases hC : cur + (cs.length + 1) < 20
      · have h1 : cur + 1 < 20 := by omega
        simp [h1, h2, h3, hC]
      · simp [h2, h3, hC]

theorem wordScan_redacted (ys : List Char) (cur : Nat) :
    wordScan (redactedChars ++ ys) cur = wordScan ys 0 := rfl

theorem wordScan_redactGo (l : List Char) (acc : List Char)
    (h : acc.all isWordChar = true) :
    wordScan (redactGo l acc) 0 = true := by
  induction l generalizing acc with
  | nil =>
    show wordScan (flushRun acc) 0 = true
    by_cases hlen : 20 ≤ acc.length
    · simp only [flushRun, hlen, if_true]
      rfl
    · have hall : acc.reverse.all isWordChar = true := by
        simpa using h
      simp only [flushRun, hlen, if_false]
      have := wordScan_append_of_all acc.reverse [] 0 hall
      simp only [List.append_nil] at this
      rw [this]
      simp only [List.length_reverse, wordScan, Bool.and_true]
      by_cases hz : acc.length = 0 <;> simp [hz] <;> omega
  | cons c cs ih =>
    show wordScan (redactGo (c :: cs) acc) 0 = true
    rw [redactGo]
    by_cases hc : isWordChar c = true
    · rw [if_pos hc]
      exact ih (c :: acc) (by simp [List.all_cons, hc, h])
    · rw [if_neg hc]
      by_cases hlen : 20 ≤ acc.length
      · rw [flushRun, if_pos hlen, wordScan_redacted]
        rw [wordScan, if_neg hc]
        exact ih [] rfl
      · have hall : acc.reverse.all isWordChar = true := by
          simpa using h
        rw [flushRun, if_neg hlen]
        rw [wordScan_append_of_all acc.reverse _ 0 hall]
        rw [show wordScan (c :: redactGo cs []) (0 + acc.reverse.length) =
          wordScan (redactGo cs []) 0 from by rw [wordScan, if_neg hc]]
        rw [ih [] rfl]
        simp only [List.length_reverse, Bool.and_true]
        by_cases hz : acc.length = 0 <;> simp [hz] <;> omega

theorem isWordChar_of_isAlphanum (c : Char) (h : c.isAlphanum = true) :
    isWordChar c = true := by
  simp [isWordChar, h]

theorem alnumScan_of_wordScan (l : List Char) (cw ca : Nat)
    (hle : ca ≤ cw) (h : wordScan l cw = true) : alnumScan l ca = true := by
  induction l generalizing cw ca with
  | nil => rfl
  | cons c cs ih =>
    by_cases hw : isWordChar c = true
    · simp only [wordScan, hw, if_true, Bool.and_eq_true,
        decide_eq_true_eq] at h
      by_cases ha : c.isAlphanum = true
      · simp only [alnumScan, ha, if_true, Bool.and_eq_true,
          decide_eq_true_eq]
        exact ⟨by omega, ih (cw + 1) (ca + 1) (by omega) h.2⟩
      · simp only [alnumScan, ha, if_false]
        exact ih (cw + 1) 0 (by omega) h.2
    · have ha : ¬ c.isAlphanum = true := fun hx => hw (isWordChar_of_isAlphanum c hx)
      simp only [wordScan, hw, if_false] at h
      simp only [alnumScan, ha, if_false]
      exact ih 0 0 (by omega) h

/-! ## Claim C1 and C2 theorems -/

theorem status_ne_sp : ("success" : String) ≠ "partial" := by decide

theorem status_ne_sf : ("success" : String) ≠ "failed" := by decide

theorem status_ne_pf : ("partial" : String) ≠ "failed" := by decide

/-- Claim C1 (amended): on a normally terminating run the recorded status
is `success` exactly when both the AI summary and the email send succeed;
`partial` exactly when at least one of them fails and at least one feed
succeeded; `failed` exactly when at least one of them fails and no feed
succeeded; and every `success` run has `email_sent = 1`.  Unlike the
original claim, `success` does not require `feeds_ok > 0`. -/
theorem runOnce_status_semantics (emailOk summaryOk : Bool)
    (ft f seen used tin tout : Nat) :
    ((markRunFinishData emailOk summaryOk ft f seen used tin tout).status =
        "success" ↔ (emailOk = true ∧ summaryOk = true)) ∧
    ((markRunFinishData emailOk summaryOk ft f seen used tin tout).status =
        "partial" ↔ (¬(emailOk = true ∧ summaryOk = true) ∧ 0 < f)) ∧
    ((markRunFinishData emailOk summaryOk ft f seen used tin tout).status =
        "failed" ↔ (¬(emailOk = true ∧ summaryOk = true) ∧ f = 0)) ∧
    ((markRunFinishData emailOk summaryOk ft f seen used tin tout).status =
        "success" →
      (markRunFinishData emailOk summaryOk ft f seen used tin tout).email_sent
        = 1) := by
  rcases Nat.eq_zero_or_pos f with hf | hf <;>
    cases emailOk <;> cases summaryOk <;>
      simp_all [markRunFinishData, runStatusOf, status_ne_sp, status_ne_sf,
        status_ne_pf, Ne.symm status_ne_sp, Ne.symm status_ne_sf,
        Ne.symm status_ne_pf] <;> omega

/-- Claim C1 counterexample: with zero successful feeds but a successful
AI summary and email send, `runOnce` records status `success` while
`feeds_ok = 0`, refuting the claimed `success ⇒ feeds_ok > 0`. -/
theorem runOnce_success_with_zero_feeds :
    (markRunFinishData true true 3 0 0 0 0 0).status = "success" ∧
    (markRunFinishData true true 3 0 0 0 0 0).feeds_ok = 0 :=
  ⟨rfl, rfl⟩

/-- Claim C2 (amended): console log lines are passed through
`redactSecrets`, so a printed line contains no run of 20 or more
alphanumeric characters; run-log rows, by contrast, are persisted by
`appendRunLog` with the message stored verbatim (and the context JSON
merely truncated to 4000 characters), without redaction. -/
theorem redaction_scope :
    (∀ s : String, noLongAlnumRun (consoleLogLine s) = true) ∧
    (∀ run_id ts level message : String, ∀ ctx : Option String,
      (appendRunLog run_id ts level message ctx).message = message) := by
  constructor
  · intro s
    exact alnumScan_of_wordScan _ 0 0 le_rfl (wordScan_redactGo s.data [] rfl)
  · intro _ _ _ _ _
    rfl

/-- Claim C2 counterexample: a run-log row written by `appendRunLog` for a
message holding a 21-character alphanumeric token stores the token
unredacted, so the persisted message still contains an alphanumeric run of
length at least 20. -/
theorem appendRunLog_keeps_long_token :
    noLongAlnumRun ((appendRunLog ("r1") ("2025-01-01T00:00:00Z") ("info")
      ("key ABCDEFGHIJKLMNOPQRSTU here") none).message) = false := by
  decide

/-! ## Normalization and content hash (dedupe.ts, util.ts lines 46-94)

External library calls are abstracted as parameters: `canonicalizeUrl`
(the WHATWG URL parser plus tracking-parameter stripping of util.ts lines
46-68, whose output is the canonical url and lowercased hostname),
`jsParseDate` (JavaScript `new Date(s).getTime()`, `none` for
unparsable), `toIso` (`Date.prototype.toISOString` on an epoch-millisecond
timestamp) and `sha256Hex` (util.ts lines 38-44).  All repository logic —
falsiness checks, field selection, the `YYYY-MM-DD` slice and the
pipe-joined hash preimage — is concrete. -/

structure UrlInfo where
  url : String
  host : String
  deriving DecidableEq

structure RawItem where
  title : String
  link : String
  published_at : Option String
  description : Option String
  deriving DecidableEq

structure NormalizedItem where
  title : String
  canonical_url : String
  source : String
  published_at : Option String
  content_hash : String
  description : Option String
  deriving DecidableEq

/-- JavaScript `x || null` on an optional string: the empty string is
falsy and becomes null. -/
def jsOrNullStr (x : Option String) : Option String :=
  match x with
  | some s => if s = "" then none else some s
  | none => none

/-- util.ts `dateOnly` (lines 74-83): falsy input gives null, otherwise
parse and take the first 10 characters (`YYYY-MM-DD`) of the ISO form. -/
def dateOnly (jsParseDate : String → Option Int) (toIso : Int → String)
    (isoOrRaw : Option String) : Option String :=
  match isoOrRaw with
  | none => none
  | some s =>
    if s = "" then none
    else (jsParseDate s).map (fun t => (⟨(toIso t).data.take 10⟩ : String))

/-- util.ts `toIsoOrNull` (lines 85-94). -/
def toIsoOrNull (jsParseDate : String → Option Int) (toIso : Int → String)
    (isoOrRaw : Option String) : Option String :=
  match isoOrRaw with
  | none => none
  | some s => if s = "" then none else (jsParseDate s).map toIso

/-- dedupe.ts `normalizeAndHash` (lines 254-270): items whose link fails
URL parsing are dropped; otherwise the content hash is the SHA-256 of
`titleClean|canonical_url|dateDay-or-empty|host`. -/
def normalizeAndHash (canonicalizeUrl : String → Option UrlInfo)
    (jsParseDate : String → Option Int) (toIso : Int → String)
    (sha256Hex : String → String) (item : RawItem) : Option NormalizedItem :=
  match canonicalizeUrl item.link with
  | none => none
  | some urlInfo =>
    let titleClean := normalizeTitle item.title
    let dateFull := toIsoOrNull jsParseDate toIso item.published_at
    let dateDay := dateOnly jsParseDate toIso item.published_at
    some { title := item.title
           canonical_url := urlInfo.url
           source := urlInfo.host
           published_at := dateFull
           content_hash := sha256Hex (String.intercalate ("|")
             [titleClean, urlInfo.url, dateDay.getD (""), urlInfo.host])
           description := jsOrNullStr item.description }

/-- Title normalization exactly as the claim words it: the title trimmed,
lowercased, and with every run of whitespace or Unicode punctuation
collapsed to a single space — with no further trimming. -/
def claimTitleNorm (t : String) : String :=
  ⟨collapseGo (toLowerList (jsTrimList t.data)) false⟩

/-- Hash preimage as the original claim describes it. -/
def claimHashInput (jsParseDate : String → Option Int) (toIso : Int → String)
    (item : RawItem) (u : UrlInfo) : String :=
  String.intercalate ("|")
    [claimTitleNorm item.title, u.url,
     (dateOnly jsParseDate toIso item.published_at).getD (""), u.host]

/-- Title normalization as the amended claim words it: trim, lowercase,
collapse whitespace-or-punctuation runs to a single space, then trim the
result again. -/
def amendedTitleNorm (t : String) : String :=
  ⟨jsTrimList (collapseGo (toLowerList (jsTrimList t.data)) false)⟩

/-- Hash preimage as the amended claim describes it. -/
def amendedHashInput (jsParseDate : String → Option Int)
    (toIso : Int → String) (item : RawItem) (u : UrlInfo) : String :=
  String.intercalate ("|")
    [amendedTitleNorm item.title, u.url,
     (dateOnly jsParseDate toIso item.published_at).getD (""), u.host]

/-- Claim C4 (amended): for every item whose link parses as a URL, the
stored content hash is the SHA-256 of the string
`title_norm|canonical_url|date_only_or_empty|host`, where `title_norm`
is the title trimmed, lowercased, whitespace-or-punctuation runs
collapsed to a single space, and trimmed again; the hash is a function
of the item alone, and the stored source is the lowercased hostname. -/
theorem normalizeAndHash_matches_amended_spec
    (canonicalizeUrl : String → Option UrlInfo)
    (jsParseDate : String → Option Int) (toIso : Int → String)
    (sha256Hex : String → String) (item : RawItem) :
    (normalizeAndHash canonicalizeUrl jsParseDate toIso sha256Hex item).map
        (fun n => n.content_hash) =
      (canonicalizeUrl item.link).map
        (fun u => sha256Hex (amendedHashInput jsParseDate toIso item u)) := by
  unfold normalizeAndHash amendedHashInput amendedTitleNorm normalizeTitle
  cases canonicalizeUrl item.link <;> rfl

/-- Claim C4 counterexample: for the title `"!a"` (with the SHA-256
function instantiated as the identity to expose the preimages) the hash
the code computes differs from the hash the claim describes, because the
code trims the normalized title again after collapsing, while the pipeline
of the claim does not: the code hashes `"a|https://x.com/||x.com"` but the
claim prescribes `" a|https://x.com/||x.com"`. -/
theorem normalizeAndHash_claim_counterexample :
    ((normalizeAndHash (fun _ => some ⟨"https://x.com/", "x.com"⟩)
        (fun _ => none) (fun _ => "") (fun s => s)
        ⟨"!a", "https://x.com/", none, none⟩).map (fun n => n.content_hash) =
      some ("a|https://x.com/||x.com")) ∧
    claimHashInput (fun _ => none) (fun _ => "")
        ⟨"!a", "https://x.com/", none, none⟩ ⟨"https://x.com/", "x.com"⟩ =
      " a|https://x.com/||x.com" ∧
    some (" a|https://x.com/||x.com") ≠ some ("a|https://x.com/||x.com") := by
  refine ⟨by decide, by decide, by decide⟩

/-! ## Ranking and selection (select.ts)

`rankItems` is applied by `runOnce` to the freshly deduplicated articles.
Scores are JavaScript numbers modelled exactly as rationals; `Date.now()`
and `Date.parse` are epoch-millisecond parameters. -/

structure FreshArticle where
  title : String
  url : String
  source : String
  published_at : Option String
  content_hash : String
  description : Option String
  article_id : Option Nat
  deriving DecidableEq

structure ScoredItem where
  item : FreshArticle
  score : ℚ
  deriving DecidableEq

/-- Stop-word set of select.ts `tokenizeTitle` (line 534). -/
def stopWords : List String :=
  ["THE", "A", "AN", "OF", "IN", "ON", "AND", "OR", "TO", "FOR", "WITH",
   "AT", "BY", "FROM", "ABOUT", "OVER", "AFTER", "BEFORE", "IS", "ARE",
   "WAS", "WERE", "AS", "NEW", "US"]

def isUpperAlnum (c : Char) : Bool :=
  ('A' ≤ c && c ≤ 'Z') || ('0' ≤ c && c ≤ '9')

/-- After `replace(/[^A-Z0-9\s]/g, " ")` every character is either in
`[A-Z0-9]` or whitespace, so `split(/\s+/)` returns exactly the maximal
runs of `[A-Z0-9]` (plus a possible leading empty string, which the
`length >= 3` filter removes in the code and which is dropped here). -/
def tokenRuns : List Char → List Char → List String
  | [], cur => if cur.isEmpty then [] else [⟨cur.reverse⟩]
  | c :: cs, cur =>
    if isUpperAlnum c then tokenRuns cs (c :: cur)
    else if cur.isEmpty then tokenRuns cs []
    else (⟨cur.reverse⟩ : String) :: tokenRuns cs []

/-- JavaScript `Set` built from a list: first occurrence wins, insertion
order kept. -/
def jsSetOfList (ts : List String) : List String :=
  ts.foldl (fun acc s => if s ∈ acc then acc else acc ++ [s]) []

/-- select.ts `tokenizeTitle` (lines 533-542). -/
def tokenizeTitle (t : String) : List String :=
  jsSetOfList ((tokenRuns (t.data.map Char.toUpper) []).filter
    (fun w => 3 ≤ w.length && !(stopWords.contains w)))

/-- select.ts `jaccard` (lines 544-550); token sets are the deduplicated
lists built by `jsSetOfList`, so `length` is the set size. -/
def jaccard (a b : List String) : ℚ :=
  if a.length = 0 ∧ b.length = 0 then 0
  else
    let inter := (a.filter (fun x => b.contains x)).length
    let union := a.length + b.length - inter
    if union = 0 then 0 else (inter : ℚ) / (union : ℚ)

def simThreshold : ℚ := 0.4

/-- Union-find `find` (select.ts line 488) without path compression: the
compression performed by the code rewrites parents to the root of their
tree and never changes which root any node reaches, so this fuel-based
functional version returns the same root at every call site; fuel `n`
(the item count) bounds every parent chain. -/
def ufFind (parent : List Nat) : Nat → Nat → Nat
  | 0, x => x
  | fuel + 1, x =>
    let p := parent.getD x x
    if p = x then x else ufFind parent fuel p

/-- Union-find `unite` (select.ts line 489). -/
def ufUnite (n : Nat) (parent : List Nat) (a b : Nat) : List Nat :=
  let ra := ufFind parent n a
  let rb := ufFind parent n b
  if ra ≠ rb then parent.set rb ra else parent

/-- Pairwise clustering loop (select.ts lines 491-497): for all `i < j`,
unite `i` and `j` when the Jaccard similarity of their token sets
reaches the threshold. -/
def clusterParent (toks : List (List String)) : List Nat :=
  let n := toks.length
  (List.range n).foldl (fun par i =>
    (List.range n).foldl (fun par2 j =>
      if i < j ∧ simThreshold ≤ jaccard (toks.getD i []) (toks.getD j [])
      then ufUnite n par2 i j else par2) par)
    (List.range n)

/-- Cluster-size table (select.ts lines 498-499). -/
def clusterSizes (n : Nat) (par : List Nat) : List Nat :=
  (List.range n).foldl (fun acc i =>
    let r := ufFind par n i
    acc.set r (acc.getD r 0 + 1))
    (List.replicate n 0)

/-- Cluster size used for the item at `idx`, including the `|| 1`
fallback of select.ts line 512. -/
def clusterSizeAt (items : List FreshArticle) (idx : Nat) : Nat :=
  let toks := items.map (fun it => tokenizeTitle it.title)
  let n := items.length
  let par := clusterParent toks
  let c := (clusterSizes n par).getD (ufFind par n idx) 0
  if c = 0 then 1 else c

/-- Recency contribution of select.ts lines 503-511: note that `hours`
is not clamped at zero, and that a falsy (absent or empty)
`published_at`, or an unparsable one, contributes nothing. -/
def recencyScore (now : Int) (jsParseDate : String → Option Int)
    (pub : Option String) : ℚ :=
  match pub with
  | none => 0
  | some s =>
    if s = "" then 0
    else
      match jsParseDate s with
      | none => 0
      | some t =>
        let hours : ℚ := ((now - t : Int) : ℚ) / (1000 * 60 * 60)
        (if hours ≤ 12 then (12 - hours) * 2 else 0) + max 0 (24 - hours)

/-- Scoring map of select.ts lines 501-516. -/
def scoreItems (now : Int) (jsParseDate : String → Option Int)
    (items : List FreshArticle) : List ScoredItem :=
  let toks := items.map (fun it => tokenizeTitle it.title)
  let n := items.length
  let par := clusterParent toks
  let sizes := clusterSizes n par
  items.enum.map (fun p =>
    let c := sizes.getD (ufFind par n p.1) 0
    let csz := if c = 0 then 1 else c
    { item := p.2
      score := recencyScore now jsParseDate p.2.published_at +
        max 0 ((csz : ℚ) - 1) * 6 })

/-- Stable insertion into a descending-sorted list: the new element goes
after every element whose score is at least as large, matching the
stability of `Array.prototype.sort` with comparator
`(a, b) => b.score - a.score` (select.ts line 517). -/
def insertDesc (a : ScoredItem) : List ScoredItem → List ScoredItem
  | [] => [a]
  | b :: bs => if a.score ≤ b.score then b :: insertDesc a bs else a :: b :: bs

def sortDesc (l : List ScoredItem) : List ScoredItem :=
  l.foldl (fun acc a => insertDesc a acc) []

/-- One step of the diversity-cap selection loop (select.ts lines
519-529): stop (keep skipping) once `limit` items are selected; skip an
item whose source is nonempty and already at the cap; otherwise count it
and keep it.  The `break` of the code is equivalent to skipping the rest,
since the selected length never decreases. -/
def selStep (limit cap : Nat) (acc : List ScoredItem × (String → Nat))
    (s : ScoredItem) : List ScoredItem × (String → Nat) :=
  if limit ≤ acc.1.length then acc
  else
    let src := s.item.source
    let cnt := acc.2 src
    if src ≠ "" ∧ cap ≤ cnt then acc
    else (acc.1 ++ [s], fun x => if x = src then cnt + 1 else acc.2 x)

def selectDiverse (limit cap : Nat) (scored : List ScoredItem) :
    List ScoredItem :=
  (scored.foldl (selStep limit cap) ([], fun _ => 0)).1

/-- select.ts `rankItems` (lines 476-531); the watchlist argument is
unused by the code. -/
def rankItems (now : Int) (jsParseDate : String → Option Int)
    (items : List FreshArticle) (_watchlist : List String)
    (limit cap : Nat) : List ScoredItem :=
  selectDiverse limit cap (sortDesc (scoreItems now jsParseDate items))

/-- Number of selected items drawn from source `s`. -/
def countSource (l : List ScoredItem) (s : String) : Nat :=
  (l.filter (fun r => r.item.source = s)).length

theorem countSource_snoc (sel : List ScoredItem) (s : ScoredItem)
    (t : String) :
    countSource (sel ++ [s]) t =
      countSource sel t + (if s.item.source = t then 1 else 0) := by
  by_cases h : s.item.source = t <;>
    simp [countSource, List.filter_append, h]

theorem selectDiverse_invariant (limit cap : Nat) (l : List ScoredItem) :
    ∀ (sel : List ScoredItem) (counts : String → Nat),
    (∀ s, counts s = countSource sel s) →
    sel.length ≤ limit →
    (∀ s, s ≠ "" → countSource sel s ≤ cap) →
    (l.foldl (selStep limit cap) (sel, counts)).1.length ≤ limit ∧
      (∀ s, s ≠ "" →
        countSource (l.foldl (selStep limit cap) (sel, counts)).1 s ≤ cap) := by
  induction l with
  | nil => intro sel counts _ h2 h3; exact ⟨h2, h3⟩
  | cons a l ih =>
    intro sel counts h1 h2 h3
    rw [List.foldl_cons]
    by_cases hfull : limit ≤ sel.length
    · rw [show selStep limit cap (sel, counts) a = (sel, counts) from by
        simp [selStep, hfull]]
      exact ih sel counts h1 h2 h3
    · by_cases hskip : a.item.source ≠ "" ∧ cap ≤ counts a.item.source
      · rw [show selStep limit cap (sel, counts) a = (sel, counts) from by
          simp only [selStep, if_neg hfull]
          rw [if_pos hskip]]
        exact ih sel counts h1 h2 h3
      · rw [show selStep limit cap (sel, counts) a =
          (sel ++ [a], fun x => if x = a.item.source
            then counts a.item.source + 1 else counts x) from by
          simp only [selStep, if_neg hfull]
          rw [if_neg hskip]]
        refine ih _ _ ?_ ?_ ?_
        · intro s
          by_cases hs : s = a.item.source
          · subst hs
            simp [countSource_snoc, h1 a.item.source]
          · have hsa : ¬ (a.item.source = s) := fun h => hs h.symm
            simp [hs, hsa, countSource_snoc, h1 s]
        · rw [List.length_append]
          simp only [List.length_cons, List.length_nil]
          omega
        · intro s hs
          rw [countSource_snoc]
          by_cases hsa : a.item.source = s
          · have hcnt : counts a.item.source < cap := by
              rcases not_and_or.mp hskip with hx | hx
              · exact absurd (hsa.trans (Eq.refl s)) (by
                  intro hy
                  exact hx (fun hz => hs (hy ▸ hz)) )
              · omega
            rw [h1] at hcnt
            rw [hsa] at hcnt
            simp [hsa]
            omega
          · simp [hsa]
            exact h3 s hs

theorem selectDiverse_sublist (limit cap : Nat) (l : List ScoredItem) :
    ∀ (sel : List ScoredItem) (counts : String → Nat),
    ∃ t, (l.foldl (selStep limit cap) (sel, counts)).1 = sel ++ t ∧
      t.Sublist l := by
  induction l with
  | nil => intro sel counts; exact ⟨[], by simp⟩
  | cons a l ih =>
    intro sel counts
    rw [List.foldl_cons]
    by_cases hfull : limit ≤ sel.length
    · rw [show selStep limit cap (sel, counts) a = (sel, counts) from by
        simp [selStep, hfull]]
      obtain ⟨t, ht, hsub⟩ := ih sel counts
      exact ⟨t, ht, hsub.cons a⟩
    · by_cases hskip : a.item.source ≠ "" ∧ cap ≤ counts a.item.source
      · rw [show selStep limit cap (sel, counts) a = (sel, counts) from by
          simp only [selStep, if_neg hfull]
          rw [if_pos hskip]]
        obtain ⟨t, ht, hsub⟩ := ih sel counts
        exact ⟨t, ht, hsub.cons a⟩
      · rw [show selStep limit cap (sel, counts) a =
          (sel ++ [a], fun x => if x = a.item.source
            then counts a.item.source + 1 else counts x) from by
          simp only [selStep, if_neg hfull]
          rw [if_neg hskip]]
        obtain ⟨t, ht, hsub⟩ := ih (sel ++ [a]) _
        refine ⟨a :: t, ?_, hsub.cons₂ a⟩
        rw [ht, List.append_assoc]
        rfl

theorem insertDesc_mem (a x : ScoredItem) (l : List ScoredItem)
    (h : x ∈ insertDesc a l) : x = a ∨ x ∈ l := by
  induction l with
  | nil => simpa [insertDesc] using h
  | cons b bs ih =>
    rw [insertDesc] at h
    by_cases hc : a.score ≤ b.score
    · rw [if_pos hc] at h
      rcases List.mem_cons.mp h with hx | hx
      · exact Or.inr (hx ▸ List.mem_cons_self b bs)
      · rcases ih hx with hx2 | hx2
        · exact Or.inl hx2
        · exact Or.inr (List.mem_cons_of_mem b hx2)
    · rw [if_neg hc] at h
      rcases List.mem_cons.mp h with hx | hx
      · exact Or.inl hx
      · exact Or.inr hx

theorem insertDesc_pairwise (a : ScoredItem) (l : List ScoredItem)
    (h : l.Pairwise (fun x y => y.score ≤ x.score)) :
    (insertDesc a l).Pairwise (fun x y => y.score ≤ x.score) := by
  induction l with
  | nil => simp [insertDesc]
  | cons b bs ih =>
    rw [List.pairwise_cons] at h
    rw [insertDesc]
    by_cases hc : a.score ≤ b.score
    · rw [if_pos hc]
      rw [List.pairwise_cons]
      refine ⟨?_, ih h.2⟩
      intro x hx
      rcases insertDesc_mem a x bs hx with hx2 | hx2
      · exact hx2 ▸ hc
      · exact h.1 x hx2
    · rw [if_neg hc]
      rw [List.pairwise_cons]
      refine ⟨?_, List.Pairwise.cons h.1 h.2⟩
      intro x hx
      rcases List.mem_cons.mp hx with hx2 | hx2
      · exact hx2 ▸ le_of_not_le hc
      · exact le_trans (h.1 x hx2) (le_of_not_le hc)

theorem sortDesc_pairwise (l : List ScoredItem) :
    (sortDesc l).Pairwise (fun x y => y.score ≤ x.score) := by
  have hgen : ∀ (l acc : List ScoredItem),
      acc.Pairwise (fun x y => y.score ≤ x.score) →
      (l.foldl (fun acc a => insertDesc a acc) acc).Pairwise
        (fun x y => y.score ≤ x.score) := by
    intro l
    induction l with
    | nil => intro acc h; exact h
    | cons a l ih =>
      intro acc h
      rw [List.foldl_cons]
      exact ih _ (insertDesc_pairwise a acc h)
  exact hgen l [] (by simp)

theorem sortDesc_mem (x : ScoredItem) (l : List ScoredItem)
    (h : x ∈ sortDesc l) : x ∈ l := by
  have hgen : ∀ (l acc : List ScoredItem),
      x ∈ l.foldl (fun acc a => insertDesc a acc) acc →
      x ∈ acc ∨ x ∈ l := by
    intro l
    induction l with
    | nil => intro acc h; exact Or.inl h
    | cons a l ih =>
      intro acc h
      rw [List.foldl_cons] at h
      rcases ih _ h with h2 | h2
      · rcases insertDesc_mem a x acc h2 with h3 | h3
        · exact Or.inr (h3 ▸ List.mem_cons_self a l)
        · exact Or.inl h3
      · exact Or.inr (List.mem_cons_of_mem a h2)
  rcases hgen l [] h with h2 | h2
  · exact absurd h2 (List.not_mem_nil x)
  · exact h2

theorem scoreItems_item_mem (now : Int) (jsParseDate : String → Option Int)
    (items : List FreshArticle) (r : ScoredItem)
    (h : r ∈ scoreItems now jsParseDate items) : r.item ∈ items := by
  simp only [scoreItems, List.mem_map] at h
  obtain ⟨p, hp, hr⟩ := h
  obtain ⟨hlt, hx⟩ := List.mem_enum hp
  have : r.item = p.2 := by rw [← hr]
  rw [this, hx]
  exact List.getElem_mem hlt

/-- Claim C5 (amended): for every input list and caps, `rankItems`
returns at most `limit` items; for every nonempty source `s` at most
`cap` of them have source `s` (an item with an empty source string is
never skipped by the diversity cap, so the empty source is exempt); and
the returned list is a sublist of the descending stable sort of the
scored items, hence itself in descending score order. -/
theorem rankItems_caps (now : Int) (jsParseDate : String → Option Int)
    (items : List FreshArticle) (wl : List String) (limit cap : Nat) :
    (rankItems now jsParseDate items wl limit cap).length ≤ limit ∧
    (∀ s, s ≠ "" →
      countSource (rankItems now jsParseDate items wl limit cap) s ≤ cap) ∧
    (rankItems now jsParseDate items wl limit cap).Sublist
      (sortDesc (scoreItems now jsParseDate items)) ∧
    (rankItems now jsParseDate items wl limit cap).Pairwise
      (fun a b => b.score ≤ a.score) := by
  have hinv := selectDiverse_invariant limit cap
    (sortDesc (scoreItems now jsParseDate items)) [] (fun _ => 0)
    (fun s => by simp [countSource]) (by simp) (fun s _ => by simp [countSource])
  obtain ⟨t, ht, hsubl⟩ := selectDiverse_sublist limit cap
    (sortDesc (scoreItems now jsParseDate items)) [] (fun _ => 0)
  have heq : rankItems now jsParseDate items wl limit cap = t := by
    rw [rankItems, selectDiverse, ht]
    rfl
  refine ⟨hinv.1, hinv.2, ?_, ?_⟩
  · rw [heq]
    exact hsubl
  · rw [heq]
    exact List.Pairwise.sublist hsubl (sortDesc_pairwise _)

/-- Claim C5 witness: instantiation of `rankItems_caps` at one concrete
article from the nonempty source `"nytimes.com"` with the default caps. -/
theorem rankItems_caps_witness :
    (("nytimes.com" : String) ≠ "") ∧
    countSource (rankItems 0 (fun _ => none)
      [⟨"Markets Rally Today", "https://a/", "nytimes.com", none,
        "h1", none, some 1⟩] [] 25 10) ("nytimes.com") ≤ 10 :=
  ⟨by decide,
    (rankItems_caps 0 (fun _ => none)
      [⟨"Markets Rally Today", "https://a/", "nytimes.com", none,
        "h1", none, some 1⟩] [] 25 10).2.1 ("nytimes.com") (by decide)⟩

/-- Claim C5 counterexample: with `per_source_cap = 1`, two items that
both carry the empty source string are both selected, because the skip
guard `if (src && cnt >= perSourceCap)` never fires for a falsy (empty)
source; so the returned list holds 2 items of source `""`, exceeding the
cap, refuting the claimed bound for every source. -/
theorem rankItems_empty_source_exceeds_cap :
    countSource (rankItems 0 (fun _ => none)
      [⟨"", "https://a/", "", none, "h1", none, some 1⟩,
       ⟨"", "https://b/", "", none, "h2", none, some 2⟩] [] 25 1) "" = 2 := by
  norm_num [rankItems, scoreItems, clusterParent, clusterSizes, ufFind,
    ufUnite, tokenizeTitle, tokenRuns, jsSetOfList, jaccard, simThreshold,
    recencyScore, sortDesc, insertDesc, selectDiverse, selStep, countSource,
    List.range_succ, List.enum_cons, List.enumFrom, List.getD]

/-! ## Dedupe loop of `runOnce` (index.ts lines 290-310)

The seen-hash store is the list of hashes in `seen_hashes`;
`hasSeenHash` and `insertSeenHash` are the storage.ts accessors
(lines 98-109), with `INSERT OR IGNORE` modelled as membership-checked
insertion.  `insertArticle` (an `INSERT OR IGNORE` on `articles` plus an
id lookup) is abstracted as the `insertArticleId` parameter. -/

def hasSeenHash (store : List String) (h : String) : Bool := store.contains h

def insertSeenHash (store : List String) (h : String) : List String :=
  if store.contains h then store else h :: store

structure DedupeState where
  seen : List String
  fresh : List FreshArticle
  newCount : Nat

/-- Body of the `for (const n of normalized)` loop of `runOnce`: an item
already seen is skipped; otherwise its hash is inserted, its Article row
is inserted, and it joins `freshArticles`. -/
def dedupeStep (insertArticleId : String → Option Nat) (st : DedupeState)
    (n : NormalizedItem) : DedupeState :=
  if hasSeenHash st.seen n.content_hash then st
  else
    { seen := insertSeenHash st.seen n.content_hash
      fresh := st.fresh ++
        [{ title := n.title
           url := n.canonical_url
           source := n.source
           published_at := n.published_at
           content_hash := n.content_hash
           description := jsOrNullStr n.description
           article_id := insertArticleId n.content_hash }]
      newCount := st.newCount + 1 }

def dedupeRun (insertArticleId : String → Option Nat) (seen0 : List String)
    (normalized : List NormalizedItem) : DedupeState :=
  normalized.foldl (dedupeStep insertArticleId) ⟨seen0, [], 0⟩

theorem mem_insertSeenHash (store : List String) (h x : String)
    (hx : x ∈ store) : x ∈ insertSeenHash store h := by
  rw [insertSeenHash]
  by_cases hc : store.contains h = true
  · rw [if_pos hc]
    exact hx
  · rw [if_neg hc]
    exact List.mem_cons_of_mem h hx

theorem dedupeRun_invariant (insertArticleId : String → Option Nat)
    (S : List String) (l : List NormalizedItem) :
    ∀ (st : DedupeState), (∀ x ∈ S, x ∈ st.seen) →
    (∀ a ∈ st.fresh, a.content_hash ∉ S) →
    (∀ x ∈ S, x ∈ (l.foldl (dedupeStep insertArticleId) st).seen) ∧
      (∀ a ∈ (l.foldl (dedupeStep insertArticleId) st).fresh,
        a.content_hash ∉ S) := by
  induction l with
  | nil => intro st h1 h2; exact ⟨h1, h2⟩
  | cons n l ih =>
    intro st h1 h2
    rw [List.foldl_cons]
    by_cases hc : hasSeenHash st.seen n.content_hash = true
    · rw [show dedupeStep insertArticleId st n = st from by
        rw [dedupeStep, if_pos hc]]
      exact ih st h1 h2
    · have hnotmem : n.content_hash ∉ st.seen := by
        simpa [hasSeenHash] using hc
      rw [dedupeStep, if_neg hc]
      refine ih _ ?_ ?_
      · intro x hx
        exact mem_insertSeenHash st.seen n.content_hash x (h1 x hx)
      · intro a ha
        rcases List.mem_append.mp ha with ha2 | ha2
        · exact h2 a ha2
        · have : a.content_hash = n.content_hash := by
            rcases List.mem_singleton.mp ha2 with rfl
            rfl
          rw [this]
          intro hmem
          exact hnotmem (h1 _ hmem)

/-- Claim C3 (confirmed): no article whose `content_hash` was present in
the seen-hash store before the run started survives the dedupe loop, so
no such article reaches `rankItems` and none is recorded as a RunArticle
row: the hash of every ranked item was absent from the initial store.  (The
kept items have their hash inserted into `seen_hashes`, and their Article
row inserted via insert-ignore, as part of `dedupeStep`.) -/
theorem rankItems_excludes_previously_seen
    (insertArticleId : String → Option Nat) (seen0 : List String)
    (normalized : List NormalizedItem) (now : Int)
    (jsParseDate : String → Option Int) (wl : List String)
    (limit cap : Nat) :
    ((rankItems now jsParseDate
        (dedupeRun insertArticleId seen0 normalized).fresh wl limit cap).all
      (fun r => !(seen0.contains r.item.content_hash))) = true := by
  rw [List.all_eq_true]
  intro r hr
  have hfresh : r.item ∈ (dedupeRun insertArticleId seen0 normalized).fresh := by
    have hsorted : r ∈ sortDesc (scoreItems now jsParseDate
        (dedupeRun insertArticleId seen0 normalized).fresh) := by
      obtain ⟨t, ht, hsubl⟩ := selectDiverse_sublist limit cap
        (sortDesc (scoreItems now jsParseDate
          (dedupeRun insertArticleId seen0 normalized).fresh)) [] (fun _ => 0)
      have heq : rankItems now jsParseDate
          (dedupeRun insertArticleId seen0 normalized).fresh wl limit cap = t := by
        rw [rankItems, selectDiverse, ht]
        rfl
      exact hsubl.mem (heq ▸ hr)
    exact scoreItems_item_mem _ _ _ _ (sortDesc_mem _ _ hsorted)
  have hnot : r.item.content_hash ∉ seen0 := by
    have hinv := dedupeRun_invariant insertArticleId seen0 normalized
      ⟨seen0, [], 0⟩ (fun x hx => hx) (by intro a ha; exact absurd ha (List.not_mem_nil a))
    exact hinv.2 r.item hfresh
  simpa using hnot

/-- Score formula exactly as the original claim words it: with a
parseable timestamp the recency part is `2*max(0,12-h) + max(0,24-h)`
for `h = max(0, (now - published)/1h)` — the elapsed hours clamped at
zero — plus `6*max(0, cluster_size - 1)`. -/
def specScoreClaim (now : Int) (jsParseDate : String → Option Int)
    (pub : Option String) (csz : Nat) : ℚ :=
  (match pub with
   | none => 0
   | some s =>
     if s = "" then 0
     else
       match jsParseDate s with
       | none => 0
       | some t =>
         2 * max 0 (12 - max 0 (((now - t : Int) : ℚ) / (1000 * 60 * 60))) +
           max 0 (24 - max 0 (((now - t : Int) : ℚ) / (1000 * 60 * 60)))) +
  6 * max 0 ((csz : ℚ) - 1)

/-- Score formula as the amended claim words it: identical to the
original except that `h = (now - published)/1h` is not clamped at zero,
so future-dated items earn more than `2*12 + 24` points. -/
def specScoreAmended (now : Int) (jsParseDate : String → Option Int)
    (pub : Option String) (csz : Nat) : ℚ :=
  (match pub with
   | none => 0
   | some s =>
     if s = "" then 0
     else
       match jsParseDate s with
       | none => 0
       | some t =>
         2 * max 0 (12 - ((now - t : Int) : ℚ) / (1000 * 60 * 60)) +
           max 0 (24 - ((now - t : Int) : ℚ) / (1000 * 60 * 60))) +
  6 * max 0 ((csz : ℚ) - 1)

theorem recency_plus_cluster_eq_amended (now : Int)
    (jsParseDate : String → Option Int) (pub : Option String) (csz : Nat) :
    recencyScore now jsParseDate pub + max 0 ((csz : ℚ) - 1) * 6 =
      specScoreAmended now jsParseDate pub csz := by
  rcases pub with _ | s
  · simp only [recencyScore, specScoreAmended]
    ring
  · by_cases hs : s = ""
    · simp only [recencyScore, specScoreAmended, hs, if_true]
      ring
    · rcases hp : jsParseDate s with _ | t
      · simp only [recencyScore, specScoreAmended, if_neg hs, hp]
        ring
      · simp only [recencyScore, specScoreAmended, if_neg hs, hp]
        generalize ((now - t : Int) : ℚ) / (1000 * 60 * 60) = hq
        by_cases hle : hq ≤ 12
        · rw [if_pos hle,
            max_eq_right (show (0 : ℚ) ≤ 12 - hq from by linarith),
            max_eq_right (show (0 : ℚ) ≤ 24 - hq from by linarith)]
          ring
        · rw [if_neg hle,
            max_eq_left (show 12 - hq ≤ (0 : ℚ) from by linarith)]
          ring

/-- Claim C6 (amended): the score `rankItems` assigns to the item at each
index equals `2*max(0,12-h) + max(0,24-h)` when the item has a parseable
timestamp — with `h = (now - published)/1h` not clamped at zero, unlike
the original claim — plus `6*max(0, cluster_size - 1)`, and 0 recency
points when the timestamp is absent, empty or unparseable; clusters are
the union-find closure over pairs with title-token Jaccard similarity at
least 0.4 under the tokenization of the code. -/
theorem scoreItems_matches_amended_formula (now : Int)
    (jsParseDate : String → Option Int) (items : List FreshArticle) :
    scoreItems now jsParseDate items = items.enum.map (fun p =>
      { item := p.2
        score := specScoreAmended now jsParseDate p.2.published_at
          (clusterSizeAt items p.1) }) := by
  rw [scoreItems]
  refine List.map_congr_left ?_
  intro p _
  have := recency_plus_cluster_eq_amended now jsParseDate p.2.published_at
    (clusterSizeAt items p.1)
  rw [ScoredItem.mk.injEq]
  refine ⟨rfl, ?_⟩
  rw [← this, clusterSizeAt]

/-- Claim C6 counterexample: for a single item published one hour in the
future (`t = now + 3600000 ms`), the code computes the unclamped
`hours = -1` and scores `(12-(-1))*2 + max(0, 24-(-1)) = 51`, while the
claimed formula clamps `h` to `0` and yields `2*12 + 24 = 48`. -/
theorem scoreItems_claim_counterexample :
    ((scoreItems 0 (fun _ => some 3600000)
        [⟨"", "https://a/", "s", some ("t"), "h1", none, none⟩]).map
      (fun r => r.score) = [51]) ∧
    specScoreClaim 0 (fun _ => some 3600000) (some ("t"))
        (clusterSizeAt [⟨"", "https://a/", "s", some ("t"), "h1", none,
          none⟩] 0) = 48 ∧
    ((51 : ℚ) ≠ 48) := by
  refine ⟨?_, ?_, by norm_num⟩
  · norm_num [scoreItems, clusterParent, clusterSizes, ufFind, ufUnite,
      tokenizeTitle, tokenRuns, jsSetOfList, jaccard, simThreshold,
      recencyScore, List.range_succ, List.enum_cons, List.enumFrom,
      List.getD]
    decide
  · norm_num [specScoreClaim, clusterSizeAt, clusterParent, clusterSizes,
      ufFind, ufUnite, tokenizeTitle, tokenRuns, jsSetOfList,
      List.range_succ, List.getD]
    decide

/-! ## Provider response handling (summarize.ts)

Each `try*` function is modelled at the point where the HTTP call has
already returned success (`resp.ok`) and the JSON body has been parsed:
the structures below carry exactly the fields the code reads through
optional chaining (`Option` marks a field that may be absent or not of
the expected type), and the outcome functions reproduce the success and
failure results the code builds from them.  Markdown rendering
(`markdownToHtmlSafe`) is irrelevant to these claims and is abstracted
as the `render` parameter. -/

structure ChatMsg where
  content : Option String
  deriving DecidableEq

structure ChatChoice where
  message : Option ChatMsg
  deriving DecidableEq

structure ChatData where
  choices : Option (List ChatChoice)
  prompt_tokens : Option Nat
  completion_tokens : Option Nat
  deriving DecidableEq

structure RespContentItem where
  type : Option String
  text : Option String
  deriving DecidableEq

structure RespOutputItem where
  type : Option String
  text : Option String
  content : Option (List RespContentItem)
  deriving DecidableEq

structure ResponsesData where
  output_text : Option String
  output : Option (List RespOutputItem)
  input_tokens : Option Nat
  output_tokens : Option Nat
  deriving DecidableEq

structure GemPart where
  text : Option String
  deriving DecidableEq

structure GemContent where
  parts : Option (List GemPart)
  deriving DecidableEq

structure GemCand where
  content : Option GemContent
  deriving DecidableEq

structure GeminiData where
  candidates : Option (List GemCand)
  promptTokenCount : Option Nat
  candidatesTokenCount : Option Nat
  deriving DecidableEq

structure AnthContentItem where
  text : Option String
  deriving DecidableEq

structure AnthData where
  content : Option (List AnthContentItem)
  deriving DecidableEq

/-- Result shape of the summarize functions (summarize.ts lines 20-27). -/
structure SummarizeResult where
  ok : Bool
  html : String
  tokens_in : Option Nat
  tokens_out : Option Nat
  provider : Option String
  error : Option String
  deriving DecidableEq

/-- Truthiness of `x.trim()` for an optional string field checked with
`typeof x === "string" && x.trim()`. -/
def optStrTrimTruthy (x : Option String) : Bool :=
  match x with
  | some t => !(jsTrim t).isEmpty
  | none => false

/-- Inner `for (const c of content)` loop of `extractResponsesText`
(summarize.ts lines 473-480); the `else if` branch is kept although its
condition is subsumed by the first. -/
def walkContent (chunks : List String) (item : RespOutputItem) :
    List String :=
  (item.content.getD []).foldl (fun ch c =>
    match c.text with
    | some t =>
      if !(jsTrim t).isEmpty then ch ++ [t]
      else if c.type = some ("output_text") ∧ !(jsTrim t).isEmpty
      then ch ++ [t] else ch
    | none => ch) chunks

/-- Walk of the structured `output` array (summarize.ts lines 463-482). -/
def extractWalk (d : ResponsesData) : String :=
  let out := d.output.getD []
  let chunks := out.foldl (fun chunks item =>
    match item.text with
    | some t =>
      if item.type = some ("output_text") ∧ !(jsTrim t).isEmpty
      then chunks ++ [t]
      else walkContent chunks item
    | none => walkContent chunks item) []
  if chunks.isEmpty then "" else String.intercalate "\n\n" chunks

/-- summarize.ts `extractResponsesText` (lines 457-485). -/
def extractResponsesText (d : ResponsesData) : String :=
  match d.output_text with
  | some s => if !(jsTrim s).isEmpty then s else extractWalk d
  | none => extractWalk d

/-- The text the responses-shape branch of `tryOpenAI` works with
(line 270): `(data?.output_text as string) || extractResponsesText(data)`. -/
def responsesExtractedText (d : ResponsesData) : String :=
  match d.output_text with
  | some s => if s ≠ "" then s else extractResponsesText d
  | none => extractResponsesText d

/-- The text of the chat-shape branch (line 307):
`data?.choices?.[0]?.message?.content || ""`. -/
def chatExtractedText (d : ChatData) : String :=
  ((((d.choices.getD []).head?.bind (fun ch => ch.message)).bind
    (fun m => m.content)).getD "")

/-- The text `tryAnthropic` reads (line 360):
`data?.content?.[0]?.text || ""`. -/
def anthropicExtractedText (d : AnthData) : String :=
  (((d.content.getD []).head?.bind (fun c => c.text)).getD "")

/-- The text `tryGemini` reads (line 221):
`data?.candidates?.[0]?.content?.parts?.[0]?.text || ""`. -/
def geminiExtractedText (d : GeminiData) : String :=
  (((((d.candidates.getD []).head?.bind (fun c => c.content)).bind
    (fun c => (c.parts.getD []).head?)).bind (fun p => p.text)).getD "")

/-- Responses-shape outcome of `tryOpenAI` on an HTTP-success response
(summarize.ts lines 269-282): empty or whitespace-only text is a
failure. -/
def openAIResponsesOutcome (render : String → String) (model : String)
    (d : ResponsesData) : SummarizeResult :=
  let text := responsesExtractedText d
  if text ≠ "" ∧ !(jsTrim text).isEmpty then
    { ok := true
      html := render text
      tokens_in := some (d.input_tokens.getD 0)
      tokens_out := some (d.output_tokens.getD 0)
      provider := some ("OpenAI " ++ model)
      error := none }
  else
    { ok := false, html := "", tokens_in := none, tokens_out := none
      provider := none
      error := some ("openai responses returned empty content") }

/-- Chat-shape outcome of `tryOpenAI` on an HTTP-success response
(summarize.ts lines 306-319). -/
def openAIChatOutcome (render : String → String) (model : String)
    (d : ChatData) : SummarizeResult :=
  let text := chatExtractedText d
  if text ≠ "" ∧ !(jsTrim text).isEmpty then
    { ok := true
      html := render text
      tokens_in := some (d.prompt_tokens.getD 0)
      tokens_out := some (d.completion_tokens.getD 0)
      provider := some ("OpenAI " ++ model)
      error := none }
  else
    { ok := false, html := "", tokens_in := none, tokens_out := none
      provider := none
      error := some ("openai returned empty content") }

/-- Outcome of `tryAnthropic` on an HTTP-success response (summarize.ts
lines 359-368). -/
def anthropicOutcome (render : String → String) (model : String)
    (d : AnthData) : SummarizeResult :=
  let text := anthropicExtractedText d
  if text ≠ "" ∧ !(jsTrim text).isEmpty then
    { ok := true, html := render text, tokens_in := none
      tokens_out := none, provider := some ("Anthropic " ++ model)
      error := none }
  else
    { ok := false, html := "", tokens_in := none, tokens_out := none
      provider := none, error := none }

/-- Outcome of `tryGemini` on an HTTP-success response (summarize.ts
lines 220-228): the result is `ok: true` unconditionally — there is no
emptiness check on the extracted candidate text. -/
def geminiOutcome (render : String → String) (model : String)
    (d : GeminiData) : SummarizeResult :=
  { ok := true
    html := render (geminiExtractedText d)
    tokens_in := some (d.promptTokenCount.getD 0)
    tokens_out := some (d.candidatesTokenCount.getD 0)
    provider := some ("Gemini " ++ model)
    error := none }

/-- Claim C7 (amended): on an HTTP-success response whose extracted text
is empty or whitespace-only, the OpenAI chat and responses shapes and
the Anthropic provider each return `ok = false` (so the cascade
advances); the Gemini provider, however, performs no emptiness check and
returns `ok = true` even for an empty first-candidate text, so the
cascade stops at Gemini with an empty summary. -/
theorem empty_output_handling :
    (∀ (render : String → String) (model : String) (d : ResponsesData),
      (jsTrim (responsesExtractedText d)).isEmpty = true →
      (openAIResponsesOutcome render model d).ok = false) ∧
    (∀ (render : String → String) (model : String) (d : ChatData),
      (jsTrim (chatExtractedText d)).isEmpty = true →
      (openAIChatOutcome render model d).ok = false) ∧
    (∀ (render : String → String) (model : String) (d : AnthData),
      (jsTrim (anthropicExtractedText d)).isEmpty = true →
      (anthropicOutcome render model d).ok = false) ∧
    (∀ (render : String → String) (model : String) (d : GeminiData),
      (geminiOutcome render model d).ok = true) := by
  refine ⟨?_, ?_, ?_, ?_⟩
  · intro render model d h
    rw [openAIResponsesOutcome]
    rw [if_neg]
    intro hcond
    rw [h] at hcond
    simp at hcond
  · intro render model d h
    rw [openAIChatOutcome]
    rw [if_neg]
    intro hcond
    rw [h] at hcond
    simp at hcond
  · intro render model d h
    rw [anthropicOutcome]
    rw [if_neg]
    intro hcond
    rw [h] at hcond
    simp at hcond
  · intro render model d
    rfl

/-- Claim C7 witness: instantiation of `empty_output_handling` at
concrete empty responses for each of the three checking providers. -/
theorem empty_output_handling_witness :
    ((jsTrim (responsesExtractedText ⟨some (""), some [], none,
        none⟩)).isEmpty = true ∧
      (openAIResponsesOutcome (fun s => s) ("gpt-5-mini")
        ⟨some (""), some [], none, none⟩).ok = false) ∧
    ((jsTrim (chatExtractedText ⟨some [], none, none⟩)).isEmpty = true ∧
      (openAIChatOutcome (fun s => s) ("gpt-4o-mini")
        ⟨some [], none, none⟩).ok = false) ∧
    ((jsTrim (anthropicExtractedText ⟨some []⟩)).isEmpty = true ∧
      (anthropicOutcome (fun s => s) ("claude-3-5-sonnet-20240620")
        ⟨some []⟩).ok = false) :=
  ⟨⟨by decide, empty_output_handling.1 (fun s => s) ("gpt-5-mini") _
      (by decide)⟩,
   ⟨by decide, empty_output_handling.2.1 (fun s => s) ("gpt-4o-mini") _
      (by decide)⟩,
   ⟨by decide, empty_output_handling.2.2.1 (fun s => s)
      ("claude-3-5-sonnet-20240620") _ (by decide)⟩⟩

/-- Claim C7 counterexample: a Gemini HTTP-success response whose first
candidate text is the empty string is still treated as a success
(`ok = true` with an empty rendered body), refuting the claim that every
provider treats empty extracted text as a failure. -/
theorem gemini_empty_text_still_ok :
    geminiExtractedText ⟨some [⟨some ⟨some [⟨some ("")⟩]⟩⟩], none, none⟩
      = "" ∧
    (geminiOutcome (fun s => s) ("gemini-2.5-flash")
      ⟨some [⟨some ⟨some [⟨some ("")⟩]⟩⟩], none, none⟩).ok = true :=
  ⟨rfl, rfl⟩

/-! ## Headlines fallback and end of run (index.ts lines 338-396)

`fallbackHeadlines` builds one `<li>` per selected item, capped at 12;
`runOnceTail` captures the tail of `runOnce` after `summarizeWithAI`
returned: the digest HTML (provider output or fallback), the
unconditional `saveDigestHtml`, the `email_sent` flag and the terminal
status. -/

structure SummaryInputItem where
  title : String
  url : String
  source : String
  description : Option String
  deriving DecidableEq

/-- JavaScript `s.replace(c, r)` for a global single-character pattern. -/
def replaceChar (c : Char) (r : List Char) (l : List Char) : List Char :=
  l.flatMap (fun x => if x = c then r else [x])

/-- index.ts `escape` (line 398): replace `&`, then `<`, then `>`. -/
def escape (s : String) : String :=
  ⟨replaceChar ('>') (("&gt;").data)
    (replaceChar ('<') (("&lt;").data)
      (replaceChar ('&') (("&amp;").data) s.data))⟩

/-- One bullet of `fallbackHeadlines` (index.ts line 394). -/
def bulletOf (it : SummaryInputItem) : String :=
  "<li><b>" ++ (escape it.title ++ ("</b> – <a href=\"" ++ (escape it.url ++
    ("\" target=\"_blank\" rel=\"noopener noreferrer\">" ++
      (escape it.source ++ "</a></li>")))))

/-- JavaScript `.join("")`. -/
def concatStrings (l : List String) : String :=
  l.foldr (fun s acc => s ++ acc) ""

/-- index.ts `fallbackHeadlines` (lines 393-396). -/
def fallbackHeadlines (items : List SummaryInputItem) : String :=
  "<h3>What changed today</h3><ul>" ++
    (concatStrings ((items.take 12).map bulletOf) ++ "</ul>")

structure RunTail where
  summaryHtml : String
  status : String
  email_sent : Nat
  digest_saved : Bool
  deriving DecidableEq

/-- Tail of `runOnce` (index.ts lines 338-379): fallback selection of the
digest body, unconditional digest save, email flag and terminal status. -/
def runOnceTail (summaryOk : Bool) (providerHtml : String) (emailOk : Bool)
    (feeds_ok : Nat) (summaryInput : List SummaryInputItem) : RunTail :=
  { summaryHtml := if summaryOk then providerHtml
      else fallbackHeadlines summaryInput
    status := runStatusOf emailOk summaryOk feeds_ok
    email_sent := if emailOk then 1 else 0
    digest_saved := true }

/-- Count of adjacent `<`,`l` character pairs; in the fallback HTML the
only tag name beginning with `l` is `li`, so this counts exactly the
`<li>` openings. -/
def countLtL : List Char → Nat
  | [] => 0
  | [_] => 0
  | a :: b :: rest =>
    (if a = '<' ∧ b = 'l' then 1 else 0) + countLtL (b :: rest)

/-- Pair contribution spanning the boundary of an append. -/
def ltlBoundary (xs ys : List Char) : Nat :=
  match xs.getLast?, ys.head? with
  | some a, some b => if a = '<' ∧ b = 'l' then 1 else 0
  | _, _ => 0

theorem countLtL_append (xs ys : List Char) :
    countLtL (xs ++ ys) = countLtL xs + countLtL ys + ltlBoundary xs ys := by
  induction xs with
  | nil => simp [countLtL, ltlBoundary]
  | cons a xs ih =>
    cases xs with
    | nil =>
      cases ys with
      | nil => simp [countLtL, ltlBoundary]
      | cons b rest =>
        simp only [List.singleton_append, countLtL, ltlBoundary,
          List.getLast?_singleton, List.head?_cons]
        omega
    | cons b rest =>
      have hstep : (a :: b :: rest) ++ ys = a :: ((b :: rest) ++ ys) := rfl
      rw [hstep]
      have hcons : (b :: rest) ++ ys = b :: (rest ++ ys) := rfl
      rw [show countLtL (a :: ((b :: rest) ++ ys)) =
          (if a = '<' ∧ b = 'l' then 1 else 0) + countLtL ((b :: rest) ++ ys)
        from by rw [hcons]; rfl]
      rw [ih]
      rw [show countLtL (a :: b :: rest) =
          (if a = '<' ∧ b = 'l' then 1 else 0) + countLtL (b :: rest) from rfl]
      rw [show ltlBoundary (a :: b :: rest) ys = ltlBoundary (b :: rest) ys
        from by rw [ltlBoundary, ltlBoundary, List.getLast?_cons_cons]]
      omega

theorem mem_of_getLast? (xs : List Char) (a : Char)
    (h : xs.getLast? = some a) : a ∈ xs := by
  induction xs with
  | nil => simp at h
  | cons x xs ih =>
    cases xs with
    | nil =>
      simp only [List.getLast?_singleton, Option.some.injEq] at h
      simp [h]
    | cons y ys =>
      rw [List.getLast?_cons_cons] at h
      exact List.mem_cons_of_mem x (ih h)

theorem ltlBoundary_zero_of_no_lt (xs ys : List Char)
    (h : ∀ c ∈ xs, c ≠ '<') : ltlBoundary xs ys = 0 := by
  rw [ltlBoundary]
  cases hx : xs.getLast? with
  | none => rfl
  | some a =>
    cases hy : ys.head? with
    | none => rfl
    | some b =>
      have ha : a ≠ '<' := h a (mem_of_getLast? xs a hx)
      simp [ha]

theorem ltlBoundary_zero_of_getLast (xs ys : List Char) (a : Char)
    (hx : xs.getLast? = some a) (ha : a ≠ '<') : ltlBoundary xs ys = 0 := by
  rw [ltlBoundary, hx]
  cases ys.head? with
  | none => rfl
  | some b => simp [ha]

theorem ltlBoundary_zero_of_head (xs ys : List Char)
    (h : ∀ b, ys.head? = some b → b ≠ 'l') : ltlBoundary xs ys = 0 := by
  rw [ltlBoundary]
  cases hx : xs.getLast? with
  | none => rfl
  | some a =>
    cases hy : ys.head? with
    | none => rfl
    | some b =>
      have hb : b ≠ 'l' := h b hy
      simp [hb]

theorem countLtL_zero_of_no_lt (l : List Char) (h : ∀ c ∈ l, c ≠ '<') :
    countLtL l = 0 := by
  induction l with
  | nil => rfl
  | cons a l ih =>
    cases l with
    | nil => rfl
    | cons b rest =>
      have ha : a ≠ '<' := h a (List.mem_cons_self a _)
      rw [show countLtL (a :: b :: rest) =
          (if a = '<' ∧ b = 'l' then 1 else 0) + countLtL (b :: rest)
        from rfl]
      rw [ih (fun c hc => h c (List.mem_cons_of_mem a hc))]
      simp [ha]

theorem mem_replaceChar (c : Char) (r : List Char) (l : List Char)
    (x : Char) (h : x ∈ replaceChar c r l) : x ∈ r ∨ (x ∈ l ∧ x ≠ c) := by
  rw [replaceChar, List.mem_flatMap] at h
  obtain ⟨y, hy, hx⟩ := h
  by_cases hyc : y = c
  · rw [if_pos hyc] at hx
    exact Or.inl hx
  · rw [if_neg hyc] at hx
    rcases List.mem_singleton.mp hx with rfl
    exact Or.inr ⟨hy, hyc⟩

theorem escape_no_lt (s : String) : ∀ c ∈ (escape s).data, c ≠ '<' := by
  intro c hc
  rw [escape] at hc
  rcases mem_replaceChar _ _ _ c hc with h1 | ⟨h1, _⟩
  · intro hx
    rw [hx] at h1
    simp at h1
  · rcases mem_replaceChar _ _ _ c h1 with h2 | ⟨_, h2⟩
    · intro hx
      rw [hx] at h2
      simp at h2
    · exact h2

theorem countLtL_skip_no_lt (p ys : List Char) (h : ∀ c ∈ p, c ≠ '<') :
    countLtL (p ++ ys) = countLtL ys := by
  rw [countLtL_append, countLtL_zero_of_no_lt p h,
    ltlBoundary_zero_of_no_lt p ys h]
  omega

theorem countLtL_block (p ys : List Char) (a : Char)
    (hx : p.getLast? = some a) (ha : a ≠ '<') :
    countLtL (p ++ ys) = countLtL p + countLtL ys := by
  rw [countLtL_append, ltlBoundary_zero_of_getLast p ys a hx ha]
  omega

theorem head_ne_l_of_lt (l : List Char) (h : l.head? = some ('<')) :
    ∀ b, l.head? = some b → b ≠ 'l' := by
  intro b hb
  rw [h] at hb
  injection hb with h2
  rw [← h2]
  decide

theorem countLtL_bulletOf (it : SummaryInputItem) :
    countLtL (bulletOf it).data = 1 := by
  rw [show (bulletOf it).data = ("<li><b>").data ++ ((escape it.title).data
    ++ (("</b> – <a href=\"").data ++ ((escape it.url).data ++
      (("\" target=\"_blank\" rel=\"noopener noreferrer\">").data ++
        ((escape it.source).data ++ ("</a></li>").data))))) from rfl]
  rw [countLtL_block _ _ ('>') (by decide) (by decide)]
  rw [countLtL_skip_no_lt _ _ (escape_no_lt it.title)]
  rw [countLtL_block _ _ ('"') (by decide) (by decide)]
  rw [countLtL_skip_no_lt _ _ (escape_no_lt it.url)]
  rw [countLtL_block _ _ ('>') (by decide) (by decide)]
  rw [countLtL_skip_no_lt _ _ (escape_no_lt it.source)]
  decide

theorem bullet_head_lt (it : SummaryInputItem) (y : List Char) :
    ((bulletOf it).data ++ y).head? = some ('<') := rfl

theorem countLtL_concat_bullets (its : List SummaryInputItem) (tail : List Char)
    (htail : ∀ b, tail.head? = some b → b ≠ 'l') :
    countLtL ((concatStrings (its.map bulletOf)).data ++ tail) =
      its.length + countLtL tail := by
  induction its with
  | nil =>
    rw [show (concatStrings (([] : List SummaryInputItem).map
      bulletOf)).data = [] from rfl]
    simp
  | cons it its ih =>
    have hdata : (concatStrings ((it :: its).map bulletOf)).data =
        (bulletOf it).data ++ (concatStrings (its.map bulletOf)).data := by
      rw [show concatStrings ((it :: its).map bulletOf) =
        bulletOf it ++ concatStrings (its.map bulletOf) from rfl]
      exact String.data_append _ _
    rw [hdata, List.append_assoc]
    have hrest : ∀ b, ((concatStrings (its.map bulletOf)).data ++
        tail).head? = some b → b ≠ 'l' := by
      cases its with
      | nil =>
        rw [show (concatStrings (([] : List SummaryInputItem).map
          bulletOf)).data = [] from rfl, List.nil_append]
        exact htail
      | cons it2 its2 =>
        have hdata2 : (concatStrings ((it2 :: its2).map bulletOf)).data =
            (bulletOf it2).data ++ (concatStrings (its2.map bulletOf)).data := by
          rw [show concatStrings ((it2 :: its2).map bulletOf) =
            bulletOf it2 ++ concatStrings (its2.map bulletOf) from rfl]
          exact String.data_append _ _
        rw [hdata2, List.append_assoc]
        exact head_ne_l_of_lt _ (bullet_head_lt it2 _)
    have hbul : countLtL ((bulletOf it).data ++
        ((concatStrings (its.map bulletOf)).data ++ tail)) =
        1 + countLtL ((concatStrings (its.map bulletOf)).data ++ tail) := by
      rw [countLtL_append, countLtL_bulletOf it,
        ltlBoundary_zero_of_head _ _ hrest]
      omega
    rw [hbul, ih]
    simp only [List.length_cons]
    omega

/-- The fallback digest contains exactly one `<li>` opening per selected
item, capped at 12. -/
theorem countLtL_fallbackHeadlines (items : List SummaryInputItem) :
    countLtL (fallbackHeadlines items).data = min items.length 12 := by
  have hdata : (fallbackHeadlines items).data =
      ("<h3>What changed today</h3><ul>").data ++
        ((concatStrings ((items.take 12).map bulletOf)).data ++
          ("</ul>").data) := by
    rw [show fallbackHeadlines items = "<h3>What changed today</h3><ul>" ++
      (concatStrings ((items.take 12).map bulletOf) ++ "</ul>") from rfl]
    rw [String.data_append, String.data_append]
  rw [hdata]
  rw [countLtL_block _ _ ('>') (by decide) (by decide)]
  rw [countLtL_concat_bullets (items.take 12) (("</ul>").data)
    (head_ne_l_of_lt _ rfl)]
  rw [List.length_take]
  have h1 : countLtL (("<h3>What changed today</h3><ul>").data) = 0 := by
    decide
  have h2 : countLtL (("</ul>").data) = 0 := by decide
  omega

/-- Claim C8 (amended): when every provider fails, the run still saves a
digest whose body is the deterministic headlines fallback with exactly
one `<li>` per selected article up to 12; the terminal status is
`partial` when at least one feed succeeded but `failed` when no feed
succeeded; and no AI-provider label is recorded (the runs table has no
such column). -/
theorem all_providers_failed_fallback (providerHtml : String)
    (emailOk : Bool) (feeds_ok : Nat) (items : List SummaryInputItem) :
    (runOnceTail false providerHtml emailOk feeds_ok items).digest_saved
      = true ∧
    (runOnceTail false providerHtml emailOk feeds_ok items).summaryHtml
      = fallbackHeadlines items ∧
    countLtL (runOnceTail false providerHtml emailOk feeds_ok
      items).summaryHtml.data = min items.length 12 ∧
    (0 < feeds_ok →
      (runOnceTail false providerHtml emailOk feeds_ok items).status
        = "partial") ∧
    (feeds_ok = 0 →
      (runOnceTail false providerHtml emailOk feeds_ok items).status
        = "failed") := by
  refine ⟨rfl, rfl, countLtL_fallbackHeadlines items, ?_, ?_⟩
  · intro hpos
    rw [runOnceTail]
    rw [show runStatusOf emailOk false feeds_ok =
      if 0 < feeds_ok then "partial" else "failed" from by
        rw [runStatusOf]
        cases emailOk <;> rfl]
    rw [if_pos hpos]
  · intro hzero
    subst hzero
    cases emailOk <;> rfl

/-- Claim C8 witness: instantiation of `all_providers_failed_fallback`
for one successful feed (status `partial`) and for zero successful feeds
(status `failed`). -/
theorem all_providers_failed_fallback_witness :
    ((0 : Nat) < 1 ∧ (runOnceTail false "" true 1 []).status = "partial") ∧
    (runOnceTail false "" true 0 []).status = "failed" :=
  ⟨⟨by decide, (all_providers_failed_fallback "" true 1 []).2.2.2.1
      (by decide)⟩,
   (all_providers_failed_fallback "" true 0 []).2.2.2.2 rfl⟩

/-- Claim C8 counterexample: when all providers fail and no feed
succeeded, the run finishes `failed`, not `partial` as claimed (and the
code sets no `ai_provider_label` anywhere: the string
`"headlines-only"` does not occur in the worker). -/
theorem fallback_status_failed_when_no_feeds :
    (runOnceTail false "" true 0 []).status = "failed" ∧
    (("failed" : String) ≠ "partial") :=
  ⟨rfl, by decide⟩

/-! ## Retry with exponential backoff (summarize.ts `fetchWithBackoff`,
lines 376-393)

The HTTP fetch is abstracted as a function from the attempt index to an
outcome: an HTTP response with some status, or a thrown network error.
The loop retries on network errors and statuses 429 or ≥ 500 after a
delay of `baseDelay * 2^i`, returns any other response immediately, and
throws (`none`) after the third failed attempt. -/

inductive FetchOutcome where
  | success (status : Nat)
  | netError
  deriving DecidableEq

/-- JavaScript `Response.ok`: status in the range 200-299. -/
def respOk (status : Nat) : Bool := 200 ≤ status && status < 300

/-- Condition under which the loop retries the attempt. -/
def isRetryable : FetchOutcome → Bool
  | .netError => true
  | .success s => !(respOk s) && (decide (500 ≤ s) || decide (s = 429))

/-- Loop body of `fetchWithBackoff`, structurally recursive on the number
of remaining attempts; the result is `(returned response status if any,
number of fetch calls made, recorded delays)`, with `none` standing for
the final `throw`. -/
def fwbGo (fetch : Nat → FetchOutcome) (baseDelay : ℚ) :
    Nat → Nat → List ℚ → Option Nat × Nat × List ℚ
  | 0, i, delays => (none, i, delays)
  | remaining + 1, i, delays =>
    match fetch i with
    | .success s =>
      if respOk s then (some s, i + 1, delays)
      else if 500 ≤ s ∨ s = 429 then
        fwbGo fetch baseDelay remaining (i + 1) (delays ++ [baseDelay * 2 ^ i])
      else (some s, i + 1, delays)
    | .netError =>
      fwbGo fetch baseDelay remaining (i + 1) (delays ++ [baseDelay * 2 ^ i])

/-- summarize.ts `fetchWithBackoff` with its default `attempts = 3` and
`baseDelay = 500`. -/
def fetchWithBackoff (fetch : Nat → FetchOutcome) : Option Nat × Nat × List ℚ :=
  fwbGo fetch 500 3 0 []

theorem fwbGo_retryable_step (fetch : Nat → FetchOutcome) (base : ℚ)
    (remaining i : Nat) (delays : List ℚ)
    (h : isRetryable (fetch i) = true) :
    fwbGo fetch base (remaining + 1) i delays =
      fwbGo fetch base remaining (i + 1) (delays ++ [base * 2 ^ i]) := by
  cases hf : fetch i with
  | netError => rw [fwbGo, hf]
  | success s =>
    rw [hf] at h
    rw [isRetryable] at h
    simp only [Bool.and_eq_true, Bool.not_eq_true, Bool.or_eq_true,
      decide_eq_true_eq] at h
    simp only [fwbGo, hf, h.1, Bool.false_eq_true, if_false]
    rw [if_pos h.2]
    have h1 : respOk s = false := by simpa using h.1
    rw [h1, if_neg Bool.false_ne_true]

theorem fwbGo_return_step (fetch : Nat → FetchOutcome) (base : ℚ)
    (remaining i : Nat) (delays : List ℚ) (s : Nat)
    (hf : fetch i = .success s) (h : isRetryable (fetch i) = false) :
    fwbGo fetch base (remaining + 1) i delays = (some s, i + 1, delays) := by
  rw [hf] at h
  rw [isRetryable] at h
  simp only [Bool.and_eq_false_iff, Bool.not_eq_false, Bool.or_eq_false_iff,
    decide_eq_false_iff_not] at h
  by_cases hok : respOk s = true
  · simp only [fwbGo, hf, hok, if_true]
  · have hok2 : respOk s = false := by
      simpa using hok
    have hcond : ¬(500 ≤ s ∨ s = 429) := by
      rcases h with h | h
      · exact absurd (by simpa using h) hok
      · tauto
    simp only [fwbGo, hf, hok2, Bool.false_eq_true, if_false]
    rw [if_neg hcond]

theorem fwbGo_calls_le (fetch : Nat → FetchOutcome) (base : ℚ) :
    ∀ (remaining i : Nat) (delays : List ℚ),
    (fwbGo fetch base remaining i delays).2.1 ≤ i + remaining := by
  intro remaining
  induction remaining with
  | zero => intro i delays; simp [fwbGo]
  | succ r ih =>
    intro i delays
    cases hf : fetch i with
    | success s =>
      by_cases hok : respOk s = true
      · simp only [fwbGo, hf, hok, if_true]
        show i + 1 ≤ i + (r + 1)
        omega
      · have hok2 : respOk s = false := by simpa using hok
        by_cases hretry : 500 ≤ s ∨ s = 429
        · simp only [fwbGo, hf, hok2, Bool.false_eq_true, if_false]
          rw [if_pos hretry]
          have := ih (i + 1) (delays ++ [base * 2 ^ i])
          omega
        · simp only [fwbGo, hf, hok2, Bool.false_eq_true, if_false]
          rw [if_neg hretry]
          show i + 1 ≤ i + (r + 1)
          omega
    | netError =>
      simp only [fwbGo, hf]
      have := ih (i + 1) (delays ++ [base * 2 ^ i])
      omega

theorem fwbGo_delays_shape (fetch : Nat → FetchOutcome) (base : ℚ) :
    ∀ (remaining i : Nat),
    ∃ k, i ≤ k ∧ k ≤ i + remaining ∧
      (fwbGo fetch base remaining i
        ((List.range i).map (fun j => base * 2 ^ j))).2.2 =
      (List.range k).map (fun j => base * 2 ^ j) := by
  intro remaining
  induction remaining with
  | zero => intro i; exact ⟨i, le_rfl, by omega, rfl⟩
  | succ r ih =>
    intro i
    cases hf : fetch i with
    | success s =>
      by_cases hok : respOk s = true
      · simp only [fwbGo, hf, hok, if_true]
        exact ⟨i, le_rfl, by omega, rfl⟩
      · have hok2 : respOk s = false := by simpa using hok
        by_cases hretry : 500 ≤ s ∨ s = 429
        · simp only [fwbGo, hf, hok2, Bool.false_eq_true, if_false]
          rw [if_pos hretry]
          rw [show (List.range i).map (fun j => base * 2 ^ j) ++
              [base * 2 ^ i] =
              (List.range (i + 1)).map (fun j => base * 2 ^ j) from by
            rw [List.range_succ, List.map_append]
            rfl]
          obtain ⟨k, hk1, hk2, hk3⟩ := ih (i + 1)
          exact ⟨k, by omega, by omega, hk3⟩
        · simp only [fwbGo, hf, hok2, Bool.false_eq_true, if_false]
          rw [if_neg hretry]
          exact ⟨i, le_rfl, by omega, rfl⟩
    | netError =>
      simp only [fwbGo, hf]
      rw [show (List.range i).map (fun j => base * 2 ^ j) ++
          [base * 2 ^ i] =
          (List.range (i + 1)).map (fun j => base * 2 ^ j) from by
        rw [List.range_succ, List.map_append]
        rfl]
      obtain ⟨k, hk1, hk2, hk3⟩ := ih (i + 1)
      exact ⟨k, by omega, by omega, hk3⟩

/-- Claim C9 (confirmed): every provider HTTP call runs at most 3 fetch
attempts; the recorded delays are exactly `500 * 2^i` for the retried
attempts `i = 0, 1, …` in order; an attempt is retried only on a network
error or an HTTP status of 429 or at least 500, and the first
non-retryable response (success or other 4xx) is returned immediately
with no further attempts; when all 3 attempts are retryable failures the
call throws after delays `500 * 2^0, 500 * 2^1, 500 * 2^2`. -/
theorem fetchWithBackoff_spec (fetch : Nat → FetchOutcome) :
    ((fetchWithBackoff fetch).2.1 ≤ 3) ∧
    (∃ k, k ≤ 3 ∧ (fetchWithBackoff fetch).2.2 =
      (List.range k).map (fun j => (500 : ℚ) * 2 ^ j)) ∧
    (∀ i s, i < 3 →
      ((List.range i).all (fun j => isRetryable (fetch j))) = true →
      fetch i = .success s → isRetryable (fetch i) = false →
      (fetchWithBackoff fetch).1 = some s ∧
        (fetchWithBackoff fetch).2.1 = i + 1) ∧
    (((List.range 3).all (fun j => isRetryable (fetch j))) = true →
      (fetchWithBackoff fetch).1 = none ∧
        (fetchWithBackoff fetch).2.1 = 3 ∧
        (fetchWithBackoff fetch).2.2 =
          [(500 : ℚ) * 2 ^ 0, 500 * 2 ^ 1, 500 * 2 ^ 2]) := by
  refine ⟨?_, ?_, ?_, ?_⟩
  · have := fwbGo_calls_le fetch 500 3 0 []
    simpa [fetchWithBackoff] using this
  · obtain ⟨k, _, hk2, hk3⟩ := fwbGo_delays_shape fetch 500 3 0
    refine ⟨k, by omega, ?_⟩
    rw [fetchWithBackoff]
    rw [show ([] : List ℚ) =
      (List.range 0).map (fun j => (500 : ℚ) * 2 ^ j) from rfl]
    exact hk3
  · intro i s hi hall hf hnr
    interval_cases i
    · rw [fetchWithBackoff, fwbGo_return_step fetch 500 2 0 [] s hf hnr]
      exact ⟨rfl, rfl⟩
    · rw [show List.range 1 = [0] from rfl] at hall
      simp only [List.all_cons, List.all_nil, Bool.and_true] at hall
      rw [fetchWithBackoff,
        fwbGo_retryable_step fetch 500 2 0 [] hall,
        fwbGo_return_step fetch 500 1 1 _ s hf hnr]
      exact ⟨rfl, rfl⟩
    · rw [show List.range 2 = [0, 1] from rfl] at hall
      simp only [List.all_cons, List.all_nil, Bool.and_true,
        Bool.and_eq_true] at hall
      rw [fetchWithBackoff,
        fwbGo_retryable_step fetch 500 2 0 [] hall.1,
        fwbGo_retryable_step fetch 500 1 1 _ hall.2,
        fwbGo_return_step fetch 500 0 2 _ s hf hnr]
      exact ⟨rfl, rfl⟩
  · intro hall
    rw [show List.range 3 = [0, 1, 2] from rfl] at hall
    simp only [List.all_cons, List.all_nil, Bool.and_true,
      Bool.and_eq_true] at hall
    rw [fetchWithBackoff,
      fwbGo_retryable_step fetch 500 2 0 [] hall.1,
      fwbGo_retryable_step fetch 500 1 1 _ hall.2.1,
      fwbGo_retryable_step fetch 500 0 2 _ hall.2.2]
    exact ⟨rfl, rfl, rfl⟩

/-- Claim C9 witness: instantiation of `fetchWithBackoff_spec` for a
fetch that immediately returns HTTP 404 (returned with a single call,
no retry) and for a fetch that always returns HTTP 429 (three calls,
then a throw). -/
theorem fetchWithBackoff_spec_witness :
    ((fetchWithBackoff (fun _ => .success 404)).1 = some 404 ∧
      (fetchWithBackoff (fun _ => .success 404)).2.1 = 1) ∧
    ((fetchWithBackoff (fun _ => .success 429)).1 = none ∧
      (fetchWithBackoff (fun _ => .success 429)).2.1 = 3 ∧
      (fetchWithBackoff (fun _ => .success 429)).2.2 =
        [(500 : ℚ) * 2 ^ 0, 500 * 2 ^ 1, 500 * 2 ^ 2]) :=
  ⟨(fetchWithBackoff_spec (fun _ => .success 404)).2.2.1 0 404 (by decide)
      (by decide) rfl (by decide),
   (fetchWithBackoff_spec (fun _ => .success 429)).2.2.2 (by decide)⟩

/-! ## Feed parsing (ingest.ts `parseFeed`, lines 43-85)

`parseFeed` runs `fast-xml-parser` and then walks the resulting
JavaScript value.  The parser itself is external; its output is
modelled as a JSON-like value (`JVal`), and the walk the repository code does over
it — optional chaining, truthiness tests, `Array.isArray` dispatch and
field extraction — is embedded concretely.  The library represents a
repeated child tag as an array and a single child as a plain object,
which is why the theorems below take the non-array shape of a
single-item document as a hypothesis.  Number-to-string conversion of
parsed numeric text nodes is abstracted as the `numStr` parameter. -/

inductive JVal where
  | str (s : String)
  | num (q : ℚ)
  | boolean (b : Bool)
  | null
  | obj (fields : List (String × JVal))
  | arr (elems : List JVal)

/-- Normalized item produced by the feed parser (ingest.ts lines 5-10). -/
structure FeedResultItem where
  title : String
  link : String
  published_at : Option String
  description : Option String
  deriving DecidableEq

/-- Property access `v[k]`: `none` models JavaScript `undefined`. -/
def jGet : JVal → String → Option JVal
  | .obj fields, k => (fields.find? (fun p => p.1 == k)).map (fun p => p.2)
  | _, _ => none

/-- JavaScript truthiness of a parsed value. -/
def jTruthy : JVal → Bool
  | .str s => s ≠ ""
  | .num q => q ≠ 0
  | .boolean b => b
  | .null => false
  | .obj _ => true
  | .arr _ => true

mutual

/-- JavaScript `toString()` on a parsed XML value; numbers are printed
by the abstract `numStr`. -/
def jsToString (numStr : ℚ → String) : JVal → String
  | .str s => s
  | .num q => numStr q
  | .boolean b => if b then "true" else "false"
  | .null => "null"
  | .obj _ => "[object Object]"
  | .arr elems => String.intercalate "," (jsToStrings numStr elems)

def jsToStrings (numStr : ℚ → String) : List JVal → List String
  | [] => []
  | v :: vs => jsToString numStr v :: jsToStrings numStr vs

end

/-- Value of `x?.toString()` for an optional field: `null` and
`undefined` short-circuit to `undefined`. -/
def optToString (numStr : ℚ → String) (v : Option JVal) : Option String :=
  match v with
  | some .null => none
  | some w => some (jsToString numStr w)
  | none => none

/-- JavaScript `x || y` for a string-or-undefined left operand and a
string right operand. -/
def jsOrStr (x : Option String) (y : String) : String :=
  match x with
  | some s => if s = "" then y else s
  | none => y

/-- JavaScript `x || y` when the fallback may itself be null. -/
def jsOrStrOpt (x : Option String) (y : Option String) : Option String :=
  match x with
  | some s => if s = "" then y else some s
  | none => y

/-- RSS item extraction (ingest.ts lines 51-57). -/
def rssExtract (numStr : ℚ → String) (out : List FeedResultItem)
    (it : JVal) : List FeedResultItem :=
  let title := jsOrStr (optToString numStr (jGet it ("title"))) ""
  let link := jsOrStr (optToString numStr (jGet it ("link")))
    (jsOrStr (optToString numStr (jGet it ("guid"))) "")
  let pub := jsOrStrOpt (optToString numStr (jGet it ("pubDate")))
    (jsOrStrOpt (optToString numStr (jGet it ("published"))) none)
  let desc := jsOrStrOpt (optToString numStr (jGet it ("description")))
    (jsOrStrOpt (optToString numStr (jGet it ("summary"))) none)
  if title ≠ "" ∧ link ≠ "" then out ++ [⟨title, link, pub, desc⟩] else out

/-- Test of line 68: the rel attribute, defaulted when falsy to the
string "alternate", strictly equals "alternate". -/
def atomRelIsAlternate (l : JVal) : Bool :=
  match jGet l ("@_rel") with
  | some v =>
    if jTruthy v then
      match v with
      | .str s => s = "alternate"
      | _ => false
    else true
  | none => true

/-- The `en.link.find(...)` of line 68: first link whose rel is (or
defaults to) `alternate` and that has a truthy `@_href`. -/
def atomFindAlt (ls : List JVal) : Option JVal :=
  ls.find? (fun l => atomRelIsAlternate l &&
    (match jGet l ("@_href") with
     | some v => jTruthy v
     | none => false))

/-- JavaScript `x || y` where `x` is a field value used for its
truthiness and stringified on use. -/
def jvalFalsyOr (numStr : ℚ → String) (x : Option JVal) (y : String) :
    String :=
  match x with
  | some v => if jTruthy v then jsToString numStr v else y
  | none => y

/-- Atom link extraction (ingest.ts lines 65-73). -/
def atomLink (numStr : ℚ → String) (en : JVal) : String :=
  match jGet en ("link") with
  | none => ""
  | some lv =>
    if jTruthy lv then
      match lv with
      | .arr ls =>
        jvalFalsyOr numStr
          ((atomFindAlt ls).bind (fun a => jGet a ("@_href")))
          (jvalFalsyOr numStr
            (ls.head?.bind (fun l0 =>
              match l0 with
              | .null => none
              | _ => jGet l0 ("@_href"))) "")
      | _ =>
        jvalFalsyOr numStr (jGet lv ("@_href"))
          (jsOrStr (optToString numStr (some lv)) "")
    else ""

/-- Atom entry extraction (ingest.ts lines 63-77). -/
def atomExtract (numStr : ℚ → String) (out : List FeedResultItem)
    (en : JVal) : List FeedResultItem :=
  let title := jsOrStr (optToString numStr (jGet en ("title"))) ""
  let link := atomLink numStr en
  let pub := jsOrStrOpt (optToString numStr (jGet en ("updated")))
    (jsOrStrOpt (optToString numStr (jGet en ("published"))) none)
  let desc := jsOrStrOpt (optToString numStr (jGet en ("summary")))
    (jsOrStrOpt (optToString numStr (jGet en ("content"))) none)
  if title ≠ "" ∧ link ≠ "" then out ++ [⟨title, link, pub, desc⟩] else out

/-- Atom branch of `parseFeed` (ingest.ts lines 61-79): entries
contribute only when `doc.feed.entry` is truthy and an array. -/
def parseFeedAtom (numStr : ℚ → String) (doc : JVal) :
    List FeedResultItem :=
  match (jGet doc ("feed")).bind (fun f => jGet f ("entry")) with
  | some v =>
    if jTruthy v then
      match v with
      | .arr es => es.foldl (atomExtract numStr) []
      | _ => []
    else []
  | none => []

/-- ingest.ts `parseFeed` on the parsed document (lines 48-80): the RSS
branch requires `doc.rss.channel.item` to be truthy and an array, else
control falls through to the Atom branch, and `[]` is returned when
neither branch fires. -/
def parseFeedDoc (numStr : ℚ → String) (doc : JVal) :
    List FeedResultItem :=
  match ((jGet doc ("rss")).bind (fun r => jGet r ("channel"))).bind
      (fun c => jGet c ("item")) with
  | some v =>
    if jTruthy v then
      match v with
      | .arr its => its.foldl (rssExtract numStr) []
      | _ => parseFeedAtom numStr doc
    else parseFeedAtom numStr doc
  | none => parseFeedAtom numStr doc

/-- Claim C10 (confirmed): a well-formed RSS 2.0 document with exactly
one `item` (which `fast-xml-parser` represents as a plain object, not an
array) contributes no articles: `parseFeed` returns the empty list;
likewise an Atom feed with exactly one `entry`. -/
theorem parseFeed_single_item_empty :
    (∀ (numStr : ℚ → String) (doc item : JVal)
      (fields : List (String × JVal)),
      ((jGet doc ("rss")).bind (fun r => jGet r ("channel"))).bind
        (fun c => jGet c ("item")) = some item →
      item = .obj fields →
      jGet doc ("feed") = none →
      parseFeedDoc numStr doc = []) ∧
    (∀ (numStr : ℚ → String) (doc entry : JVal)
      (fields : List (String × JVal)),
      jGet doc ("rss") = none →
      (jGet doc ("feed")).bind (fun f => jGet f ("entry")) = some entry →
      entry = .obj fields →
      parseFeedDoc numStr doc = []) := by
  constructor
  · intro numStr doc item fields hrss hobj hfeed
    subst hobj
    simp [parseFeedDoc, hrss, jTruthy, parseFeedAtom, hfeed]
  · intro numStr doc entry fields hrss hfeed hobj
    subst hobj
    simp [parseFeedDoc, hrss, jTruthy, parseFeedAtom, hfeed]

/-- Claim C10 witness: instantiation of `parseFeed_single_item_empty` at
a concrete single-item RSS document and a concrete single-entry Atom
document. -/
theorem parseFeed_single_item_empty_witness :
    (parseFeedDoc (fun _ => "") (.obj [("rss", .obj [("channel", .obj
      [("item", .obj [("title", .str ("A")), ("link",
        .str ("http://e.com/a"))])])])]) = []) ∧
    (parseFeedDoc (fun _ => "") (.obj [("feed", .obj [("entry", .obj
      [("title", .str ("A")), ("link", .obj [("@_href",
        .str ("http://e.com/a"))])])])]) = []) :=
  ⟨parseFeed_single_item_empty.1 (fun _ => "") _
      (.obj [("title", .str ("A")), ("link", .str ("http://e.com/a"))])
      [("title", .str ("A")), ("link", .str ("http://e.com/a"))]
      rfl rfl rfl,
   parseFeed_single_item_empty.2 (fun _ => "") _
      (.obj [("title", .str ("A")), ("link", .obj [("@_href",
        .str ("http://e.com/a"))])])
      [("title", .str ("A")), ("link", .obj [("@_href",
        .str ("http://e.com/a"))])]
      rfl rfl rfl⟩

end NewsDigest
